import Mathlib

/-!
Verification development for the EarningsCrush repository.

Shallow embedding of the pure logic of `earnings_cache.py`,
`run_preearnings_straddle_scan_ib.py` and `run_earnings_scan_ib.py`:

* JSON values (`JVal`) with Python truthiness, modelling the payloads the
  Finnhub earnings-calendar provider returns and the on-disk cache entries.
* `fetch_earnings_calendar` / `fetch_earnings_calendar_cached` from
  `earnings_cache.py`, with network/JSON failures modelled as `Except`
  errors (a raised Python exception) and the provider response supplied as
  an explicit `ProviderResponse` value.  Disk persistence (`_load_cache` /
  `_save_cache`) is abstracted to the in-memory `entries` association list
  that those functions read and write; Python `dict` semantics (unique
  keys, insertion order, in-place update) are modelled on the list.
* Python floats are modelled as rationals; `time.time()` values are passed
  in explicitly.
* The expiration picker, strike rounding, historical gap-move estimator,
  scorer and result ordering of the straddle scanner.

`List.insertionSort` (a stable sort) models the stable Python `list.sort`.
-/

namespace EarningsCrush

/-- JSON values as produced by `resp.json()` / stored in the cache file.
Numbers are collapsed to rationals (Python floats/ints). -/
inductive JVal where
  | null : JVal
  | bool (b : Bool) : JVal
  | num (q : ℚ) : JVal
  | str (s : String) : JVal
  | arr (xs : List JVal) : JVal
  | obj (fields : List (String × JVal)) : JVal

/-- Python truthiness of a JSON value (`if x:`). -/
def truthy : JVal → Bool
  | .null => false
  | .bool b => b
  | .num q => q ≠ 0
  | .str s => s ≠ ""
  | .arr xs => !xs.isEmpty
  | .obj fs => !fs.isEmpty

/-- Python `isinstance(x, dict)`. -/
def isObj : JVal → Bool
  | .obj _ => true
  | _ => false

/-- Python `isinstance(x, list)`. -/
def isArr : JVal → Bool
  | .arr _ => true
  | _ => false

/-- Python `d.get(k)` on a dict modelled as an association list with
unique keys (first binding wins, as in a dict). -/
def lookupKey (fs : List (String × JVal)) (k : String) : Option JVal :=
  (fs.find? (fun p => p.1 = k)).map (·.2)

/-- Python `d[k] = v` on a dict: replace in place if the key is present
(dicts keep insertion order), else append a new binding. -/
def setKey (fs : List (String × JVal)) (k : String) (v : JVal) :
    List (String × JVal) :=
  if fs.any (fun p => p.1 = k) then
    fs.map (fun p => if p.1 = k then (k, v) else p)
  else
    fs ++ [(k, v)]

/-- Python `d.pop(k, None)` on a dict (the key is removed if present). -/
def popKey (fs : List (String × JVal)) (k : String) : List (String × JVal) :=
  fs.filter (fun p => p.1 ≠ k)

/-- A raised Python exception, by kind. -/
inductive PyErr where
  | transport : PyErr
  | jsonDecode : PyErr
  | attrError : PyErr
  | typeError : PyErr
  | valueError : PyErr
deriving DecidableEq

/-- Python `float(x)` on a JSON value.  Strings are modelled as never
parsing (`ValueError`); no cache entry written by this code stores a
string `checked_at`, and no claim depends on numeric strings. -/
def pyFloat : JVal → Except PyErr ℚ
  | .num q => .ok q
  | .bool b => .ok (if b then 1 else 0)
  | .null => .error .typeError
  | .str _ => .error .valueError
  | .arr _ => .error .typeError
  | .obj _ => .error .typeError

/-- Python `x or y` for a JSON value defaulting to `0.0`
(`entry.get("checked_at") or 0.0`). -/
def orZero : Option JVal → JVal
  | some v => if truthy v then v else .num 0
  | none => .num 0

/-- One provider interaction for `requests.get(url)`:
either the transport raises, or we get an HTTP status plus the JSON body
(`none` = body that `resp.json()` fails to parse). -/
inductive ProviderResponse where
  | transportError : ProviderResponse
  | http (status : ℕ) (body : Option JVal) : ProviderResponse

/-- Iterating a Python value in a list comprehension (`for x in cal`):
lists yield elements, strings yield 1-char strings, dicts yield keys,
everything else raises `TypeError`. -/
def iterElems : JVal → Except PyErr (List JVal)
  | .arr xs => .ok xs
  | .str s => .ok (s.data.map (fun c => JVal.str (String.mk [c])))
  | .obj fs => .ok (fs.map (fun p => JVal.str p.1))
  | _ => .error .typeError

/-- The expression `data.get("earningsCalendar") or []`. -/
def orEmptyList : Option JVal → JVal
  | some v => if truthy v then v else .arr []
  | none => .arr []

/-- Function `earnings_cache.fetch_earnings_calendar` (lines 72-90): a non-200
status returns `[]`; otherwise `data = resp.json() or {}`,
`cal = data.get("earningsCalendar") or []`,
`return [x for x in cal if isinstance(x, dict)]`.
Transport errors and JSON decode errors raise. -/
def fetch_earnings_calendar (resp : ProviderResponse) :
    Except PyErr (List JVal) :=
  match resp with
  | .transportError => .error .transport
  | .http status body =>
    if status ≠ 200 then
      .ok []
    else
      match body with
      | none => .error .jsonDecode
      | some j =>
        match (if truthy j then j else JVal.obj []) with
        | .obj fs =>
          match iterElems (orEmptyList (lookupKey fs "earningsCalendar")) with
          | .error e => .error e
          | .ok xs => .ok (xs.filter isObj)
        | _ => .error .attrError

/-- Python string `<` (lexicographic by code point), written structurally
so that it evaluates inside the kernel. -/
def strLtB : List Char → List Char → Bool
  | [], [] => false
  | [], _ :: _ => true
  | _ :: _, [] => false
  | c :: cs, d :: ds => if c < d then true else if d < c then false else strLtB cs ds

/-- The timestamp used for pruning: `float(val.get("checked_at") or 0.0)`
inside `try/except`, defaulting to `0.0` for non-dict values and
conversion failures (lines 122-129). -/
def entryTs (v : JVal) : ℚ :=
  match v with
  | .obj fs =>
    match pyFloat (orZero (lookupKey fs "checked_at")) with
    | .ok q => q
    | .error _ => 0
  | _ => 0

/-- Comparison `<=` of Python `(float, str)` tuples, as used by `items.sort()` on
the `(ts, key)` pairs: lexicographic, floats first, keys breaking ties. -/
def tsKeyRel : ℚ × String → ℚ × String → Prop :=
  fun a b => a.1 < b.1 ∨ (a.1 = b.1 ∧ strLtB b.2.data a.2.data = false)

instance : DecidableRel tsKeyRel := fun a b =>
  inferInstanceAs (Decidable (a.1 < b.1 ∨ (a.1 = b.1 ∧ strLtB b.2.data a.2.data = false)))

/-- Pruning victims, `items.sort(); items[:500]` (lines 121-131): the 500 least `(ts, key)`
pairs of the entries map. -/
def pruneVictims (fs : List (String × JVal)) : List (ℚ × String) :=
  ((fs.map (fun p => (entryTs p.2, p.1))).insertionSort tsKeyRel).take 500

/-- Lines 118-132 of `earnings_cache.py`: if more than 4000 entries, build
the `(ts, key)` list, sort it, and pop the first 500 keys. -/
def pruneEntries (fs : List (String × JVal)) : List (String × JVal) :=
  if fs.length > 4000 then
    (pruneVictims fs).foldl (fun acc it => popKey acc it.2) fs
  else
    fs

/-- What the cache-entry inspection on lines 105-113 decides. -/
inductive ProbeOutcome where
  | raise (e : PyErr) : ProbeOutcome
  | hit (xs : List JVal) : ProbeOutcome
  | miss : ProbeOutcome

/-- Lines 105-113 of `fetch_earnings_calendar_cached`: look up the entry;
if it is a dict, convert `checked_at` (which can raise on a corrupt
entry), and on a fresh entry return the stored list filtered to dicts
(or `[]` when `data` is not a list); otherwise fall through to a fetch. -/
def cacheProbe (entries : List (String × JVal)) (k : String) (now ttl : ℚ) :
    ProbeOutcome :=
  match lookupKey entries k with
  | some (.obj fs) =>
    match pyFloat (orZero (lookupKey fs "checked_at")) with
    | .error e => .raise e
    | .ok ca =>
      if ca > 0 ∧ now - ca ≤ ttl then
        match lookupKey fs "data" with
        | some (.arr xs) => .hit (xs.filter isObj)
        | _ => .hit []
      else
        .miss
  | _ => .miss

/-- Result of one call to `fetch_earnings_calendar_cached`: the returned
value (or raised exception), the entries map after the call, and whether
the provider was contacted. -/
structure FetchOutcome where
  result : Except PyErr (List JVal)
  cache' : List (String × JVal)
  providerCalled : Bool

/-- Function `earnings_cache.fetch_earnings_calendar_cached` (lines 93-136).
`entries` is the entries map of the loaded cache file; `now` is
`time.time()`; the provider behaviour for the (single possible) fetch is
`resp`.  On a fresh hit the stored data is returned and nothing mutates;
otherwise the provider is called, the result (or the exception) is
propagated, and on success the entry is stored under `checked_at = now`
and the map is pruned and saved. -/
def fetch_earnings_calendar_cached (k : String) (now ttl : ℚ)
    (entries : List (String × JVal)) (resp : ProviderResponse) :
    FetchOutcome :=
  match cacheProbe entries k now ttl with
  | .raise e => ⟨.error e, entries, false⟩
  | .hit xs => ⟨.ok xs, entries, false⟩
  | .miss =>
    match fetch_earnings_calendar resp with
    | .error e => ⟨.error e, entries, true⟩
    | .ok ds =>
      let entries1 :=
        setKey entries k (.obj [("checked_at", .num now), ("data", .arr ds)])
      ⟨.ok ds, pruneEntries entries1, true⟩

/-- A proleptic-Gregorian calendar date, as in the Python `datetime.date`. -/
structure PyDate where
  year : ℤ
  month : ℤ
  day : ℤ
deriving DecidableEq

/-- Days since 1970-01-01 of a civil date (standard integer algorithm for
the proleptic Gregorian calendar, matching the Python `datetime` module). -/
def days_from_civil (dt : PyDate) : ℤ :=
  let y := if dt.month ≤ 2 then dt.year - 1 else dt.year
  let era := Int.fdiv y 400
  let yoe := y - era * 400
  let mp := (dt.month + 9) % 12
  let doy := (153 * mp + 2) / 5 + dt.day - 1
  let doe := yoe * 365 + yoe / 4 - yoe / 100 + doy
  era * 146097 + doe - 719468

/-- Python `date.toordinal()` (day 1 = 0001-01-01). -/
def toordinal (dt : PyDate) : ℤ := days_from_civil dt + 719163

/-- Python `date.weekday()`: Monday = 0, ..., Friday = 4, Sunday = 6. -/
def weekday (dt : PyDate) : ℤ := (days_from_civil dt + 3) % 7

/-- Python `(d2 - d1).days` for two dates. -/
def daysBetween (d1 d2 : PyDate) : ℤ := toordinal d2 - toordinal d1

/-- Function `is_monthly_expiration` (straddle scanner, lines 193-199) on an
already-parsed expiration: third-Friday heuristic.  The caller passes
`none` when `datetime.strptime` failed, in which case the function
returns `False`. -/
def is_monthly_expiration : Option PyDate → Bool
  | some exp => decide (weekday exp = 4) && decide (15 ≤ exp.day) && decide (exp.day ≤ 21)
  | none => false

/-- The candidate list built by lines 221-232 of
`pick_straddle_expiration_after_earnings`: expirations are supplied as
parse results (`none` = unparseable string, skipped); a candidate keeps
its date and its `dte` and must satisfy
`days_until_earnings + 1 ≤ dte ≤ days_until_earnings + 90`. -/
def straddle_candidates (expirations : List (Option PyDate)) (today : PyDate)
    (days_until_earnings : ℤ) : List (PyDate × ℤ) :=
  expirations.filterMap (fun e? =>
    match e? with
    | none => none
    | some e =>
      let dte := daysBetween today e
      if dte < days_until_earnings + 1 then none
      else if dte > days_until_earnings + 90 then none
      else some (e, dte))

/-- Ordering by `dte` used by the two `sort(key=lambda x: x[1])` calls. -/
def dteRel : PyDate × ℤ → PyDate × ℤ → Prop := fun a b => a.2 ≤ b.2

instance : DecidableRel dteRel := fun a b => inferInstanceAs (Decidable (a.2 ≤ b.2))

/-- Function `pick_straddle_expiration_after_earnings` (lines 214-243): among the
candidates, return the smallest-dte monthly expiration if any candidate
is monthly, else the smallest-dte candidate, else `None` (the stable
`sort(key=lambda x: x[1])` + `[0]` of the source is head-of-sorted). -/
def pick_straddle_expiration_after_earnings (expirations : List (Option PyDate))
    (today : PyDate) (days_until_earnings : ℤ) : Option (PyDate × ℤ) :=
  if straddle_candidates expirations today days_until_earnings = [] then
    none
  else
    if (straddle_candidates expirations today days_until_earnings).filter
        (fun c => is_monthly_expiration (some c.1)) ≠ [] then
      (((straddle_candidates expirations today days_until_earnings).filter
          (fun c => is_monthly_expiration (some c.1))).insertionSort dteRel).head?
    else
      ((straddle_candidates expirations today days_until_earnings).insertionSort
        dteRel).head?

/-- Line 511, `ratio_avg = (implied_move_pct / realized_avg) if (realized_avg and
realized_avg > 0) else None` (line 511): `None` and `0.0` are falsy. -/
def ratio_to_avg (implied_move_pct : ℚ) (realized_avg : Option ℚ) : Option ℚ :=
  match realized_avg with
  | some a => if a ≠ 0 ∧ a > 0 then some (implied_move_pct / a) else none
  | none => none

/-- Line 512, `ratio_last`, same shape as `ratio_avg`. -/
def ratio_to_last (implied_move_pct : ℚ) (realized_last : Option ℚ) : Option ℚ :=
  match realized_last with
  | some l => if l ≠ 0 ∧ l > 0 then some (implied_move_pct / l) else none
  | none => none

/-- The recommendation heuristic of `run_scan` (lines 519-528): default
`WATCH`; when both ratios are defined, `CANDIDATE` iff
`ratio_avg ≤ 0.90 and ratio_last ≤ 0.95`, else `WATCH` iff
`ratio_avg ≤ 1.00`, else `PASS`. -/
def recommendation_of (implied_move_pct : ℚ) (realized_avg realized_last : Option ℚ) :
    String :=
  match ratio_to_avg implied_move_pct realized_avg,
        ratio_to_last implied_move_pct realized_last with
  | some ra, some rl =>
    if ra ≤ 0.90 ∧ rl ≤ 0.95 then "CANDIDATE"
    else if ra ≤ 1.00 then "WATCH"
    else "PASS"
  | _, _ => "WATCH"

/-- One daily price bar (only the fields the estimator reads). -/
structure Bar where
  open_ : ℚ
  close : ℚ
deriving DecidableEq

/-- Python `str.lower()` (ASCII case-folding suffices for the `hour`
tags compared against `"bmo"` / `"amc"`). -/
def pyLower (s : String) : String := ⟨s.data.map Char.toLower⟩

/-- Python `hour and hour.lower() == tag`: `None` and `""` are falsy. -/
def hourIs (hour : Option String) (tag : String) : Bool :=
  match hour with
  | some h => h ≠ "" && pyLower h == tag
  | none => false

/-- Lines 361-363: the before-market-open gap,
`abs(bar_e.open - bar_prev.close) / bar_prev.close`, guarded by both bars
existing and both fields being truthy (a `0.0` field is falsy). -/
def bmoMove (bar_prev bar_e : Option Bar) : Option ℚ :=
  match bar_prev, bar_e with
  | some p, some e =>
    if p.close ≠ 0 ∧ e.open_ ≠ 0 then some (|e.open_ - p.close| / p.close) else none
  | _, _ => none

/-- Lines 364-366: the after-market-close gap,
`abs(bar_next.open - bar_e.close) / bar_e.close`. -/
def amcMove (bar_e bar_next : Option Bar) : Option ℚ :=
  match bar_e, bar_next with
  | some e, some n =>
    if e.close ≠ 0 ∧ n.open_ ≠ 0 then some (|n.open_ - e.close| / e.close) else none
  | _, _ => none

/-- Lines 369-371: the close-to-close fallback,
`abs(bar_next.close - bar_e.close) / bar_e.close`. -/
def fallbackMove (bar_e bar_next : Option Bar) : Option ℚ :=
  match bar_e, bar_next with
  | some e, some n =>
    if e.close ≠ 0 ∧ n.close ≠ 0 then some (|n.close - e.close| / e.close) else none
  | _, _ => none

/-- The realized-move selection of `fetch_historical_gap_moves`
(lines 358-374): prefer the timing-specific open-gap formula, fall back to
close-to-close whenever it produced nothing. -/
def realized_for (hour : Option String) (bar_prev bar_e bar_next : Option Bar) :
    Option ℚ :=
  let realized :=
    if hourIs hour "bmo" then bmoMove bar_prev bar_e
    else if hourIs hour "amc" then amcMove bar_e bar_next
    else none
  match realized with
  | some r => some r
  | none => fallbackMove bar_e bar_next

/-- Python `round(x)`: round half to even, as on floats. -/
def pyround (x : ℚ) : ℤ :=
  let f := ⌊x⌋
  let r := x - f
  if r < 1/2 then f
  else if 1/2 < r then f + 1
  else if f % 2 = 0 then f else f + 1

/-- Python `round(x, 2)`: round to two decimal places, half to even. -/
def round2 (x : ℚ) : ℚ := (pyround (x * 100) : ℚ) / 100

/-- The `HistoricalMove` dataclass (lines 129-133). -/
structure HistoricalMove where
  earnings_date : String
  hour : Option String
  realized_move_pct : ℚ
deriving DecidableEq

/-- One past earnings event as seen by the loop of
`fetch_historical_gap_moves`: the calendar fields plus the three daily
bars looked up around the event date (`none` = that day has no bar). -/
structure GapEvent where
  date_str : String
  hour : Option String
  bar_prev : Option Bar
  bar_e : Option Bar
  bar_next : Option Bar

/-- Lines 358-382 for a single event: the selected realized move, scaled
to a percentage and rounded, or `none` when the event is dropped. -/
def historical_move_of (ev : GapEvent) : Option HistoricalMove :=
  match realized_for ev.hour ev.bar_prev ev.bar_e ev.bar_next with
  | some r => some ⟨ev.date_str, ev.hour, round2 (r * 100)⟩
  | none => none

/-- The event loop of `fetch_historical_gap_moves` (lines 321-387) over
the already-selected recent past events, with the per-event bar data
supplied by the caller: events whose move cannot be computed are dropped
silently. -/
def fetch_historical_gap_moves (events : List GapEvent) : List HistoricalMove :=
  events.filterMap historical_move_of

/-- Function `get_atm_strike` from `run_earnings_scan_ib.py` (lines 90-99): four
price bands. -/
def get_atm_strike_scan_ib (price : ℚ) : ℚ :=
  if price < 50 then (pyround (price / 2.5) : ℚ) * 2.5
  else if price < 100 then (pyround (price / 5) : ℚ) * 5
  else if price < 200 then (pyround (price / 5) : ℚ) * 5
  else (pyround (price / 10) : ℚ) * 10

/-- Function `get_atm_strike` from `run_preearnings_straddle_scan_ib.py`
(lines 140-146): three price bands. -/
def get_atm_strike_straddle (price : ℚ) : ℚ :=
  if price < 50 then (pyround (price / 2.5) : ℚ) * 2.5
  else if price < 200 then (pyround (price / 5) : ℚ) * 5
  else (pyround (price / 10) : ℚ) * 10

/-- Constant `MAX_REL_BID_ASK_SPREAD` (line 94). -/
def MAX_REL_BID_ASK_SPREAD : ℚ := 0.35

/-- The mid-price selection of `get_option_quote` (lines 256-269): average
of bid and ask when both are present, else last, else whichever side
exists. -/
def quote_mid (bid ask last : Option ℚ) : Option ℚ :=
  match bid, ask with
  | some b, some a => some ((b + a) / 2)
  | _, _ =>
    match last with
    | some l => some l
    | none =>
      match bid with
      | some b => some b
      | none => ask

/-- Function `spread_ok` (lines 275-281): quotes missing a side or with a
non-positive mid always pass; otherwise the relative spread must not
exceed `MAX_REL_BID_ASK_SPREAD`. -/
def spread_ok (bid ask mid : Option ℚ) : Bool :=
  match bid, ask, mid with
  | some b, some a, some m =>
    if m ≤ 0 then true
    else
      let spr := a - b
      let rel := if m ≠ 0 then spr / m else 0
      decide (rel ≤ MAX_REL_BID_ASK_SPREAD)
  | _, _, _ => true

/-- The guard on lines 499-501 of `run_scan`: the ticker survives only if
both legs pass `spread_ok`. -/
def passes_spread_checks (call_bid call_ask call_mid put_bid put_ask put_mid :
    Option ℚ) : Bool :=
  spread_ok call_bid call_ask call_mid && spread_ok put_bid put_ask put_mid

/-- An entry of the `opportunities` list, reduced to the fields the final
ordering reads (`score`, with `ticker` to tell records apart). -/
structure Opportunity where
  ticker : String
  score : Option ℚ
deriving DecidableEq

/-- The sort key of line 568:
`(x.get("score") is not None, x.get("score") or -1e9)` — note that a
score of `0.0` is falsy and collapses to `-1e9`. -/
def opp_sort_key (o : Opportunity) : Bool × ℚ :=
  (o.score.isSome,
   match o.score with
   | some s => if s ≠ 0 then s else -1000000000
   | none => -1000000000)

/-- The ordering realised by `sort(key=..., reverse=True)`: `a` may be
placed before `b` iff `key b ≤ key a` lexicographically
(`False < True` on the first component). -/
def oppRel : Opportunity → Opportunity → Prop := fun a b =>
  (opp_sort_key b).1 = false ∧ (opp_sort_key a).1 = true ∨
  ((opp_sort_key b).1 = (opp_sort_key a).1 ∧ (opp_sort_key b).2 ≤ (opp_sort_key a).2)

instance : DecidableRel oppRel := fun _ _ =>
  inferInstanceAs (Decidable (_ ∨ _))

/-- Line 568: the final stable descending sort of the opportunities. -/
def sort_opportunities (opps : List Opportunity) : List Opportunity :=
  opps.insertionSort oppRel

/-- A family of pairwise-distinct cache keys used to build concrete large
cache states: `natKey i` is the string of `i` letters `a`. -/
def natKey (i : ℕ) : String := ⟨List.replicate i 'a'⟩

/-- A concrete entries map with `n` distinct well-formed entries, entry
`i` having `checked_at = i`. -/
def mkEntries (n : ℕ) : List (String × JVal) :=
  (List.range n).map
    (fun i => (natKey i, JVal.obj [("checked_at", .num i), ("data", .arr [])]))

theorem strLtB_irrefl (x : List Char) : strLtB x x = false := by
  induction x with
  | nil => rfl
  | cons c cs ih => simp [strLtB, ih]

theorem strLtB_trans {x y z : List Char} (h1 : strLtB x y = true)
    (h2 : strLtB y z = true) : strLtB x z = true := by
  induction x generalizing y z with
  | nil =>
    cases z with
    | nil => cases y <;> simp [strLtB] at h2
    | cons e es => rfl
  | cons c cs ih =>
    cases y with
    | nil => simp [strLtB] at h1
    | cons d ds =>
      cases z with
      | nil => simp [strLtB] at h2
      | cons e es =>
        simp only [strLtB] at h1 h2 ⊢
        by_cases hcd : c < d
        · by_cases hde : d < e
          · rw [if_pos (hcd.trans hde)]
          · rw [if_neg hde] at h2
            by_cases hed : e < d
            · rw [if_pos hed] at h2
              exact absurd h2 (by simp)
            · have hde' : d = e := le_antisymm (not_lt.mp hed) (not_lt.mp hde)
              subst hde'
              rw [if_pos hcd]
        · rw [if_neg hcd] at h1
          by_cases hdc : d < c
          · rw [if_pos hdc] at h1
            exact absurd h1 (by simp)
          · have hcd' : c = d := le_antisymm (not_lt.mp hdc) (not_lt.mp hcd)
            subst hcd'
            rw [if_neg (lt_irrefl c)] at h1
            by_cases hce : c < e
            · rw [if_pos hce]
            · rw [if_neg hce] at h2 ⊢
              by_cases hec : e < c
              · rw [if_pos hec] at h2
                exact absurd h2 (by simp)
              · rw [if_neg hec] at h2 ⊢
                exact ih h1 h2

theorem strLtB_conn {x y : List Char} (h1 : strLtB x y = false)
    (h2 : strLtB y x = false) : x = y := by
  induction x generalizing y with
  | nil =>
    cases y with
    | nil => rfl
    | cons d ds => simp [strLtB] at h1
  | cons c cs ih =>
    cases y with
    | nil => simp [strLtB] at h2
    | cons d ds =>
      simp only [strLtB] at h1 h2
      rcases lt_trichotomy c d with hcd | hcd | hcd
      · rw [if_pos hcd] at h1
        simp at h1
      · subst hcd
        rw [if_neg (lt_irrefl c), if_neg (lt_irrefl c)] at h1 h2
        rw [ih h1 h2]
      · rw [if_pos hcd] at h2
        simp at h2

theorem strLtB_notLt_trans {x y z : List Char} (h1 : strLtB y x = false)
    (h2 : strLtB z y = false) : strLtB z x = false := by
  cases hzx : strLtB z x with
  | false => rfl
  | true =>
    exfalso
    cases hyz : strLtB y z with
    | false =>
      have hzy : z = y := strLtB_conn h2 hyz
      subst hzy
      rw [hzx] at h1
      exact absurd h1 (by simp)
    | true =>
      have h := strLtB_trans hyz hzx
      rw [h] at h1
      exact absurd h1 (by simp)

instance : IsTotal (ℚ × String) tsKeyRel where
  total a b := by
    unfold tsKeyRel
    rcases lt_trichotomy a.1 b.1 with h | h | h
    · exact Or.inl (Or.inl h)
    · cases hs : strLtB b.2.data a.2.data with
      | false => exact Or.inl (Or.inr ⟨h, rfl⟩)
      | true =>
        refine Or.inr (Or.inr ⟨h.symm, ?_⟩)
        cases hs2 : strLtB a.2.data b.2.data with
        | false => rfl
        | true =>
          have hcontra := strLtB_trans hs hs2
          rw [strLtB_irrefl] at hcontra
          exact absurd hcontra (by simp)
    · exact Or.inr (Or.inl h)

instance : IsTrans (ℚ × String) tsKeyRel where
  trans a b c hab hbc := by
    unfold tsKeyRel at *
    rcases hab with h | ⟨he, h2⟩ <;> rcases hbc with h' | ⟨he', h2'⟩
    · exact Or.inl (h.trans h')
    · exact Or.inl (he' ▸ h)
    · exact Or.inl (he ▸ h')
    · exact Or.inr ⟨he.trans he', strLtB_notLt_trans h2 h2'⟩

instance : IsTotal (PyDate × ℤ) dteRel where
  total a b := le_total a.2 b.2

instance : IsTrans (PyDate × ℤ) dteRel where
  trans _ _ _ hab hbc := le_trans hab hbc

instance : IsTotal Opportunity oppRel where
  total a b := by
    unfold oppRel
    cases ha : (opp_sort_key a).1 <;> cases hb : (opp_sort_key b).1
    · rcases le_total (opp_sort_key b).2 (opp_sort_key a).2 with h | h
      · exact Or.inl (Or.inr ⟨rfl, h⟩)
      · exact Or.inr (Or.inr ⟨rfl, h⟩)
    · exact Or.inr (Or.inl ⟨rfl, rfl⟩)
    · exact Or.inl (Or.inl ⟨rfl, rfl⟩)
    · rcases le_total (opp_sort_key b).2 (opp_sort_key a).2 with h | h
      · exact Or.inl (Or.inr ⟨rfl, h⟩)
      · exact Or.inr (Or.inr ⟨rfl, h⟩)

instance : IsTrans Opportunity oppRel where
  trans a b c hab hbc := by
    unfold oppRel at *
    rcases hab with ⟨hb1, ha1⟩ | ⟨hba, h2⟩ <;>
      rcases hbc with ⟨hc1, hb1'⟩ | ⟨hcb, h2'⟩
    · rw [hb1] at hb1'
      exact absurd hb1' (by simp)
    · exact Or.inl ⟨hcb.trans hb1, ha1⟩
    · refine Or.inl ⟨hc1, ?_⟩
      rw [← hba]
      exact hb1'
    · exact Or.inr ⟨hcb.trans hba, h2'.trans h2⟩

theorem sorted_head_min {α : Type} {r : α → α → Prop} {c : α} {rest : List α}
    (h : List.Sorted r (c :: rest)) : ∀ y ∈ c :: rest, y = c ∨ r c y := by
  intro y hy
  rcases List.mem_cons.mp hy with h' | h'
  · exact Or.inl h'
  · exact Or.inr (List.rel_of_sorted_cons h y h')

theorem lookupKey_eq_none_iff {fs : List (String × JVal)} {k : String} :
    lookupKey fs k = none ↔ ∀ p ∈ fs, p.1 ≠ k := by
  unfold lookupKey
  rw [Option.map_eq_none', List.find?_eq_none]
  constructor
  · intro h p hp
    have := h p hp
    simpa using this
  · intro h p hp
    simpa using h p hp

theorem lookupKey_setKey_self (fs : List (String × JVal)) (k : String) (v : JVal) :
    lookupKey (setKey fs k v) k = some v := by
  unfold setKey
  by_cases h : fs.any (fun p => p.1 = k)
  · rw [if_pos h]
    rcases List.any_eq_true.mp h with ⟨p, hp, hpk⟩
    unfold lookupKey
    induction fs with
    | nil => simp at hp
    | cons q qs ih =>
      by_cases hq : q.1 = k
      · simp [List.find?, hq]
      · rcases List.mem_cons.mp hp with rfl | hp'
        · exact absurd (by simpa using hpk) hq
        · simp only [List.map_cons, if_neg hq]
          rw [List.find?_cons_of_neg _ (by simpa using hq)]
          exact ih (List.any_eq_true.mpr ⟨p, hp', hpk⟩) hp'
  · rw [if_neg h]
    unfold lookupKey
    rw [List.find?_append]
    have hnone : fs.find? (fun p => p.1 = k) = none := by
      rw [List.find?_eq_none]
      intro p hp
      simp only [List.any_eq_true] at h
      push_neg at h
      simpa using h p hp
    rw [hnone]
    simp [List.find?]

theorem setKey_of_fresh {fs : List (String × JVal)} {k : String} (v : JVal)
    (h : ∀ p ∈ fs, p.1 ≠ k) : setKey fs k v = fs ++ [(k, v)] := by
  unfold setKey
  rw [if_neg]
  simp only [List.any_eq_true, not_exists]
  intro p
  intro hcontra
  rcases hcontra with ⟨hp, hpk⟩
  exact h p hp (by simpa using hpk)

theorem length_setKey_le (fs : List (String × JVal)) (k : String) (v : JVal) :
    (setKey fs k v).length ≤ fs.length + 1 := by
  unfold setKey
  by_cases h : fs.any (fun p => p.1 = k)
  · rw [if_pos h, List.length_map]
    exact Nat.le_succ _
  · rw [if_neg h, List.length_append]
    simp

theorem pruneEntries_of_small {fs : List (String × JVal)}
    (h : fs.length ≤ 4000) : pruneEntries fs = fs := by
  unfold pruneEntries
  rw [if_neg]
  omega

theorem keys_popKey_sublist (fs : List (String × JVal)) (k : String) :
    List.Sublist ((popKey fs k).map Prod.fst) (fs.map Prod.fst) :=
  (List.filter_sublist fs).map Prod.fst

theorem length_popKey_of_mem {fs : List (String × JVal)} {k : String}
    (hnd : (fs.map Prod.fst).Nodup) (hk : k ∈ fs.map Prod.fst) :
    (popKey fs k).length + 1 = fs.length := by
  unfold popKey
  induction fs with
  | nil => simp at hk
  | cons p ps ih =>
    simp only [List.map_cons, List.nodup_cons] at hnd
    by_cases hp : p.1 = k
    · subst hp
      rw [List.filter_cons_of_neg (by simp)]
      have : ps.filter (fun q => q.1 ≠ p.1) = ps := by
        rw [List.filter_eq_self]
        intro q hq
        simp only [ne_eq, decide_eq_true_eq, decide_not, Bool.not_eq_false']
        rw [Bool.not_eq_true']
        simp only [decide_eq_false_iff_not]
        intro hq1
        exact hnd.1 (hq1 ▸ List.mem_map_of_mem Prod.fst hq)
      rw [this]
      simp
    · rw [List.map_cons] at hk
      rcases List.mem_cons.mp hk with h' | h'
      · exact absurd h'.symm hp
      · rw [List.filter_cons_of_pos (by simpa using hp)]
        simp only [List.length_cons]
        rw [← ih hnd.2 h']

theorem mem_keys_popKey {fs : List (String × JVal)} {k k' : String}
    (hne : k' ≠ k) (h : k' ∈ fs.map Prod.fst) :
    k' ∈ (popKey fs k).map Prod.fst := by
  unfold popKey
  rcases List.mem_map.mp h with ⟨p, hp, hpk⟩
  exact List.mem_map.mpr ⟨p, List.mem_filter.mpr ⟨hp, by simp [hpk, hne]⟩, hpk⟩

theorem foldl_popKey_length (vs : List (ℚ × String)) (fs : List (String × JVal))
    (hnd : (fs.map Prod.fst).Nodup) (hvnd : (vs.map Prod.snd).Nodup)
    (hmem : ∀ v ∈ vs, v.2 ∈ fs.map Prod.fst) :
    (vs.foldl (fun acc it => popKey acc it.2) fs).length + vs.length = fs.length := by
  induction vs generalizing fs with
  | nil => simp
  | cons v vs ih =>
    simp only [List.foldl_cons, List.length_cons]
    simp only [List.map_cons, List.nodup_cons] at hvnd
    have hpop := length_popKey_of_mem hnd (hmem v (by simp))
    have hnd' : ((popKey fs v.2).map Prod.fst).Nodup :=
      hnd.sublist (keys_popKey_sublist fs v.2)
    have hmem' : ∀ w ∈ vs, w.2 ∈ (popKey fs v.2).map Prod.fst := by
      intro w hw
      refine mem_keys_popKey ?_ (hmem w (List.mem_cons_of_mem v hw))
      intro hcontra
      exact hvnd.1 (hcontra ▸ List.mem_map_of_mem Prod.snd hw)
    have := ih (popKey fs v.2) hnd' hvnd.2 hmem'
    omega

theorem map_snd_tsKey (fs : List (String × JVal)) :
    (fs.map (fun p => (entryTs p.2, p.1))).map Prod.snd = fs.map Prod.fst := by
  rw [List.map_map]
  rfl

theorem pruneVictims_snd_nodup {fs : List (String × JVal)}
    (hnd : (fs.map Prod.fst).Nodup) : ((pruneVictims fs).map Prod.snd).Nodup := by
  unfold pruneVictims
  have hperm :
      List.Perm ((fs.map (fun p => (entryTs p.2, p.1))).insertionSort tsKeyRel)
        (fs.map (fun p => (entryTs p.2, p.1))) :=
    List.perm_insertionSort _ _
  have hkeys := (hperm.map Prod.snd).nodup_iff.mpr (map_snd_tsKey fs ▸ hnd)
  rw [List.map_take]
  exact hkeys.sublist (List.take_sublist _ _)

theorem pruneVictims_mem_keys {fs : List (String × JVal)} {v : ℚ × String}
    (hv : v ∈ pruneVictims fs) : v.2 ∈ fs.map Prod.fst := by
  unfold pruneVictims at hv
  have hv' := List.mem_of_mem_take hv
  have hv2 := (List.perm_insertionSort tsKeyRel _).mem_iff.mp hv'
  rw [← map_snd_tsKey fs]
  exact List.mem_map_of_mem Prod.snd hv2

theorem pruneVictims_length {fs : List (String × JVal)}
    (hlen : 4000 < fs.length) : (pruneVictims fs).length = 500 := by
  unfold pruneVictims
  rw [List.length_take, List.length_insertionSort, List.length_map]
  omega

theorem pruneEntries_length {fs : List (String × JVal)}
    (hnd : (fs.map Prod.fst).Nodup) (hlen : 4000 < fs.length) :
    (pruneEntries fs).length + 500 = fs.length := by
  unfold pruneEntries
  rw [if_pos hlen]
  have h := foldl_popKey_length (pruneVictims fs) fs hnd
    (pruneVictims_snd_nodup hnd) (fun v hv => pruneVictims_mem_keys hv)
  rw [pruneVictims_length hlen] at h
  exact h

theorem mem_foldl_popKey {vs : List (ℚ × String)} {fs : List (String × JVal)}
    {x : String × JVal}
    (hx : x ∈ vs.foldl (fun acc it => popKey acc it.2) fs) :
    x ∈ fs ∧ ∀ v ∈ vs, x.1 ≠ v.2 := by
  induction vs generalizing fs with
  | nil => simpa using hx
  | cons v vs ih =>
    rw [List.foldl_cons] at hx
    rcases ih hx with ⟨hin, hrest⟩
    have hmem := List.mem_filter.mp hin
    refine ⟨hmem.1, ?_⟩
    intro w hw
    rcases List.mem_cons.mp hw with rfl | hw'
    · simpa using hmem.2
    · exact hrest w hw'

theorem pruneEntries_keeps_newer {fs : List (String × JVal)}
    (hlen : 4000 < fs.length) :
    ∀ q ∈ pruneEntries fs, ∀ v ∈ pruneVictims fs, tsKeyRel v (entryTs q.2, q.1) := by
  intro q hq v hv
  unfold pruneEntries at hq
  rw [if_pos hlen] at hq
  rcases mem_foldl_popKey hq with ⟨hin, hnotvictim⟩
  have hqq : (entryTs q.2, q.1) ∈ fs.map (fun p => (entryTs p.2, p.1)) :=
    List.mem_map_of_mem _ hin
  have hsorted : List.Sorted tsKeyRel
      ((fs.map (fun p => (entryTs p.2, p.1))).insertionSort tsKeyRel) :=
    List.sorted_insertionSort tsKeyRel _
  have hqqsorted : (entryTs q.2, q.1) ∈
      (fs.map (fun p => (entryTs p.2, p.1))).insertionSort tsKeyRel :=
    ((List.perm_insertionSort tsKeyRel
      (fs.map (fun p => (entryTs p.2, p.1)))).mem_iff).mpr hqq
  set sorted := (fs.map (fun p => (entryTs p.2, p.1))).insertionSort tsKeyRel with hsdef
  have hsplit : sorted.take 500 ++ sorted.drop 500 = sorted := List.take_append_drop _ _
  have hpw : List.Pairwise tsKeyRel (sorted.take 500 ++ sorted.drop 500) := by
    rw [hsplit]
    exact hsorted
  have hdrop : (entryTs q.2, q.1) ∈ sorted.drop 500 := by
    rcases List.mem_append.mp (by rw [hsplit]; exact hqqsorted :
        (entryTs q.2, q.1) ∈ sorted.take 500 ++ sorted.drop 500) with h' | h'
    · exact absurd rfl (hnotvictim _ h')
    · exact h'
  exact (List.pairwise_append.mp hpw).2.2 v hv _ hdrop

theorem fetch_ok_filtered {resp : ProviderResponse} {ds : List JVal}
    (h : fetch_earnings_calendar resp = .ok ds) : ds.filter isObj = ds := by
  cases resp with
  | transportError => simp [fetch_earnings_calendar] at h
  | http status body =>
    unfold fetch_earnings_calendar at h
    dsimp only at h
    by_cases hst : status ≠ 200
    · rw [if_pos hst] at h
      cases h
      rfl
    · rw [if_neg hst] at h
      cases body with
      | none => simp at h
      | some j =>
        dsimp only at h
        generalize hj : (if truthy j then j else JVal.obj []) = data at h
        cases data with
        | obj fs =>
          dsimp only at h
          generalize hiter : iterElems (orEmptyList (lookupKey fs "earningsCalendar")) = it at h
          cases it with
          | error e => simp at h
          | ok xs =>
            dsimp only at h
            simp only [Except.ok.injEq] at h
            subst h
            rw [List.filter_eq_self]
            intro a ha
            exact (List.mem_filter.mp ha).2
        | null => simp at h
        | bool b => simp at h
        | num q => simp at h
        | str s => simp at h
        | arr xs => simp at h

theorem cacheProbe_of_lookup_none {entries : List (String × JVal)} {k : String}
    (now ttl : ℚ) (h : lookupKey entries k = none) :
    cacheProbe entries k now ttl = .miss := by
  unfold cacheProbe
  rw [h]

theorem cachedFetch_miss_ok {entries : List (String × JVal)} {k : String}
    {now ttl : ℚ} {resp : ProviderResponse} {ds : List JVal}
    (hprobe : cacheProbe entries k now ttl = .miss)
    (hfetch : fetch_earnings_calendar resp = .ok ds) :
    fetch_earnings_calendar_cached k now ttl entries resp =
      ⟨.ok ds,
       pruneEntries (setKey entries k (.obj [("checked_at", .num now), ("data", .arr ds)])),
       true⟩ := by
  unfold fetch_earnings_calendar_cached
  rw [hprobe, hfetch]

theorem cachedFetch_miss_err {entries : List (String × JVal)} {k : String}
    {now ttl : ℚ} {resp : ProviderResponse} {e : PyErr}
    (hprobe : cacheProbe entries k now ttl = .miss)
    (hfetch : fetch_earnings_calendar resp = .error e) :
    fetch_earnings_calendar_cached k now ttl entries resp = ⟨.error e, entries, true⟩ := by
  unfold fetch_earnings_calendar_cached
  rw [hprobe, hfetch]

theorem cacheProbe_stored_hit {entries : List (String × JVal)} {k : String}
    {t0 now ttl : ℚ} {ds : List JVal}
    (hlook : lookupKey entries k =
      some (.obj [("checked_at", .num t0), ("data", .arr ds)]))
    (h0 : 0 < t0) (hwin : now - t0 ≤ ttl) :
    cacheProbe entries k now ttl = .hit (ds.filter isObj) := by
  have hne : t0 ≠ 0 := ne_of_gt h0
  unfold cacheProbe
  rw [hlook]
  dsimp only
  have hca : lookupKey [("checked_at", JVal.num t0), ("data", JVal.arr ds)] "checked_at" =
      some (.num t0) := by
    simp [lookupKey, List.find?]
  rw [hca]
  dsimp only [orZero]
  rw [if_pos (show truthy (JVal.num t0) = true by simp [truthy, hne])]
  dsimp only [pyFloat]
  rw [if_pos ⟨h0, hwin⟩]
  have hdata : lookupKey [("checked_at", JVal.num t0), ("data", JVal.arr ds)] "data" =
      some (.arr ds) := by
    simp [lookupKey, List.find?]
  rw [hdata]

theorem natKey_injective : Function.Injective natKey := by
  intro i j h
  have hd : List.replicate i 'a' = List.replicate j 'a' := congrArg String.data h
  have hlen := congrArg List.length hd
  simpa using hlen

theorem natKey_ne_z (i : ℕ) : natKey i ≠ "z" := by
  intro h
  have hd : List.replicate i 'a' = ['z'] := congrArg String.data h
  cases i with
  | zero => simp at hd
  | succ n =>
    rw [List.replicate_succ] at hd
    have hc := congrArg (fun l => l.headI) hd
    simp at hc

theorem mkEntries_length (n : ℕ) : (mkEntries n).length = n := by
  simp [mkEntries]

theorem mkEntries_keys_nodup (n : ℕ) : ((mkEntries n).map Prod.fst).Nodup := by
  unfold mkEntries
  rw [List.map_map]
  exact (List.nodup_range n).map natKey_injective

theorem mkEntries_lookup_z (n : ℕ) : lookupKey (mkEntries n) "z" = none := by
  rw [lookupKey_eq_none_iff]
  intro p hp
  rcases List.mem_map.mp hp with ⟨i, _, rfl⟩
  exact natKey_ne_z i

theorem mkEntries_append_keys_nodup (n : ℕ) (v : JVal) :
    ((mkEntries n ++ [("z", v)]).map Prod.fst).Nodup := by
  rw [List.map_append]
  rw [List.nodup_append]
  refine ⟨mkEntries_keys_nodup n, by simp, ?_⟩
  intro a ha hb
  simp only [List.map_cons, List.map_nil, List.mem_singleton] at hb
  subst hb
  rcases List.mem_map.mp ha with ⟨p, hp, hpa⟩
  rcases List.mem_map.mp hp with ⟨i, _, rfl⟩
  exact natKey_ne_z i hpa

/-- C9: for every price, the four-band `get_atm_strike` of
`run_earnings_scan_ib.py` and the three-band `get_atm_strike` of
`run_preearnings_straddle_scan_ib.py` return the same strike: the
50-100 and 100-200 bands both round to the nearest 5, so the two
variants are extensionally equal. -/
theorem C9_atm_strike_variants_equal (price : ℚ) :
    get_atm_strike_scan_ib price = get_atm_strike_straddle price := by
  unfold get_atm_strike_scan_ib get_atm_strike_straddle
  split_ifs with h1 h2 h3 <;> first | rfl | linarith

/-- C4: in the pre-earnings straddle scan, `ratio_to_avg` and
`ratio_to_last` are defined exactly when their denominator is a positive
number and then equal `implied / denominator`; when both are defined the
recommendation is `CANDIDATE` iff `ratio_to_avg ≤ 0.90` and
`ratio_to_last ≤ 0.95`, else `WATCH` iff `ratio_to_avg ≤ 1.00`, else
`PASS`; when either ratio is undefined the recommendation is `WATCH`. -/
theorem C4_recommendation_rule (implied : ℚ) (ravg rlast : Option ℚ) :
    ((ratio_to_avg implied ravg).isSome ↔ ∃ a, ravg = some a ∧ 0 < a) ∧
    ((ratio_to_last implied rlast).isSome ↔ ∃ l, rlast = some l ∧ 0 < l) ∧
    (∀ a, ravg = some a → 0 < a → ratio_to_avg implied ravg = some (implied / a)) ∧
    (∀ l, rlast = some l → 0 < l → ratio_to_last implied rlast = some (implied / l)) ∧
    (∀ ra rl, ratio_to_avg implied ravg = some ra →
      ratio_to_last implied rlast = some rl →
      recommendation_of implied ravg rlast =
        if ra ≤ 0.90 ∧ rl ≤ 0.95 then "CANDIDATE"
        else if ra ≤ 1.00 then "WATCH"
        else "PASS") ∧
    ((ratio_to_avg implied ravg = none ∨ ratio_to_last implied rlast = none) →
      recommendation_of implied ravg rlast = "WATCH") := by
  refine ⟨?_, ?_, ?_, ?_, ?_, ?_⟩
  · cases ravg with
    | none => simp [ratio_to_avg]
    | some a =>
      by_cases h : 0 < a
      · simp [ratio_to_avg, h, h.ne']
      · simp [ratio_to_avg, h]
  · cases rlast with
    | none => simp [ratio_to_last]
    | some l =>
      by_cases h : 0 < l
      · simp [ratio_to_last, h, h.ne']
      · simp [ratio_to_last, h]
  · intro a ha hpos
    subst ha
    simp [ratio_to_avg, hpos, hpos.ne']
  · intro l hl hpos
    subst hl
    simp [ratio_to_last, hpos, hpos.ne']
  · intro ra rl hra hrl
    unfold recommendation_of
    rw [hra, hrl]
  · intro h
    unfold recommendation_of
    rcases h with h | h
    · rw [h]
    · rw [h]
      cases ratio_to_avg implied ravg <;> rfl

/-- Witness for C4 at concrete inputs: `implied = 1`, `avg = last = 2`
give ratios `1/2` and classify through the rule; a missing average gives
`WATCH`. -/
theorem C4_recommendation_rule_witness :
    recommendation_of 1 (some 2) (some 2) =
      (if (1 : ℚ)/2 ≤ 0.90 ∧ (1 : ℚ)/2 ≤ 0.95 then "CANDIDATE"
       else if (1 : ℚ)/2 ≤ 1.00 then "WATCH"
       else "PASS") ∧
    recommendation_of 1 none (some 2) = "WATCH" := by
  constructor
  · exact (C4_recommendation_rule 1 (some 2) (some 2)).2.2.2.2.1 (1/2) (1/2)
      (by norm_num [ratio_to_avg]) (by norm_num [ratio_to_last])
  · exact (C4_recommendation_rule 1 none (some 2)).2.2.2.2.2
      (Or.inl (by simp [ratio_to_avg]))

/-- C5 counterexample: on `implied = 8`, `avg = 6.4`, `last = 7.6` the
computed `ratio_to_avg` is `8 / 6.4 = 1.25`, not `0.80`, and the
recommendation is not `CANDIDATE`; on `implied = 8`, `avg = last = 9` the
ratios are `8/9 < 1` and the recommendation is not `PASS`.  The claim has
the ratio direction inverted. -/
theorem C5_claimed_examples_false :
    ratio_to_avg 8 (some 6.4) ≠ some 0.80 ∧
    recommendation_of 8 (some 6.4) (some 7.6) ≠ "CANDIDATE" ∧
    recommendation_of 8 (some 9) (some 9) ≠ "PASS" := by
  refine ⟨?_, ?_, ?_⟩ <;> norm_num [ratio_to_avg, ratio_to_last, recommendation_of] <;>
    decide

/-- C5 amended: with `ratio = implied / realized` as the code computes it,
`implied = 8`, `avg = 6.4`, `last = 7.6` give ratios `1.25` and `20/19`
(≈1.053), hence `PASS`; `implied = 8`, `avg = last = 9` give ratios
`8/9 ≈ 0.889 ≤ 0.90` and `≤ 0.95`, hence `CANDIDATE`. -/
theorem C5_scorer_on_examples :
    ratio_to_avg 8 (some 6.4) = some 1.25 ∧
    ratio_to_last 8 (some 7.6) = some (20/19) ∧
    recommendation_of 8 (some 6.4) (some 7.6) = "PASS" ∧
    ratio_to_avg 8 (some 9) = some (8/9) ∧
    ratio_to_last 8 (some 9) = some (8/9) ∧
    recommendation_of 8 (some 9) (some 9) = "CANDIDATE" := by
  refine ⟨?_, ?_, ?_, ?_, ?_, ?_⟩ <;>
    norm_num [ratio_to_avg, ratio_to_last, recommendation_of]

/-- C10: a leg quote with both a positive bid and a positive ask gets mid
`(bid+ask)/2`; when its relative spread `(ask-bid)/mid` exceeds `0.35`
the leg fails `spread_ok` and the lines-499-501 guard rejects the ticker,
so no opportunity is emitted; a quote missing either side, or with a
non-positive or missing mid, always passes `spread_ok`. -/
theorem C10_spread_guard :
    (∀ b a : ℚ, ∀ last pb pa pm : Option ℚ, 0 < b → 0 < a →
      (a - b) / ((b + a) / 2) > MAX_REL_BID_ASK_SPREAD →
      quote_mid (some b) (some a) last = some ((b + a) / 2) ∧
      spread_ok (some b) (some a) (some ((b + a) / 2)) = false ∧
      passes_spread_checks (some b) (some a) (some ((b + a) / 2)) pb pa pm = false) ∧
    (∀ bid ask mid : Option ℚ,
      (bid = none ∨ ask = none ∨ mid = none ∨ (∃ m, mid = some m ∧ m ≤ 0)) →
      spread_ok bid ask mid = true) := by
  constructor
  · intro b a last pb pa pm hb ha hwide
    have hmid : 0 < (b + a) / 2 := by positivity
    have hsp : spread_ok (some b) (some a) (some ((b + a) / 2)) = false := by
      unfold spread_ok
      dsimp only
      rw [if_neg (not_le.mpr hmid)]
      rw [if_pos (ne_of_gt hmid)]
      exact decide_eq_false (not_le.mpr hwide)
    refine ⟨?_, hsp, ?_⟩
    · cases last <;> rfl
    · unfold passes_spread_checks
      rw [hsp]
      rfl
  · intro bid ask mid h
    rcases h with h | h | h | ⟨m, hm, hm0⟩
    · subst h
      rfl
    · subst h
      cases bid <;> rfl
    · subst h
      cases bid <;> cases ask <;> rfl
    · subst hm
      cases bid with
      | none => rfl
      | some b =>
        cases ask with
        | none => rfl
        | some a =>
          unfold spread_ok
          dsimp only
          rw [if_pos hm0]

/-- Witness for C10: bid 1, ask 2 give mid `1.5` and relative spread
`2/3 > 0.35`, so the leg is rejected; a bid-only quote passes. -/
theorem C10_spread_guard_witness :
    spread_ok (some 1) (some 2) (some ((1 + 2) / 2)) = false ∧
    spread_ok (some 1) none none = true := by
  constructor
  · exact ((C10_spread_guard.1 1 2 none none none none (by norm_num) (by norm_num)
      (by norm_num [MAX_REL_BID_ASK_SPREAD])).2).1
  · exact C10_spread_guard.2 (some 1) none none (Or.inr (Or.inl rfl))

/-- C8 (code bug): the final ordering of line 568 uses the sort key
`(score is not None, score or -1e9)`, and a score of `0.0` is falsy in
Python, so it collapses to `-1e9`: an opportunity with score `0.0` is
placed after one with score `-2`, although both scores are defined and
`-2 < 0`.  This contradicts the `Sort by score descending` comment of the code
itself and the claimed non-increasing order. -/
theorem C8_zero_score_sorted_last :
    sort_opportunities [⟨"AAA", some 0⟩, ⟨"BBB", some (-2)⟩] =
      [⟨"BBB", some (-2)⟩, ⟨"AAA", some 0⟩] ∧
    ((-2 : ℚ) < 0) := by
  constructor
  · rfl
  · norm_num

theorem hourIs_bmo_amc_false {hour : Option String}
    (h : hourIs hour "amc" = true) : hourIs hour "bmo" = false := by
  cases hour with
  | none => rfl
  | some s =>
    unfold hourIs at h ⊢
    simp only [Bool.and_eq_true, beq_iff_eq, decide_eq_true_eq] at h
    simp [h.2]

/-- C7: the historical-move estimator computes, per past earnings event,
`|open(event) - close(prev)| / close(prev)` for a before-market event
with the needed bars, `|open(next) - close(event)| / close(event)` for an
after-market event with the needed bars, and falls back to
`|close(next) - close(event)| / close(event)` when the hour is
unspecified or the timing-specific bars are missing; an event with no
usable bars is dropped silently from the output. -/
theorem C7_realized_move_rule (hour : Option String) (bp be bn : Option Bar) :
    (∀ p e, hourIs hour "bmo" = true → bp = some p → be = some e →
      p.close ≠ 0 → e.open_ ≠ 0 →
      realized_for hour bp be bn = some (|e.open_ - p.close| / p.close)) ∧
    (∀ e n, hourIs hour "amc" = true → be = some e → bn = some n →
      e.close ≠ 0 → n.open_ ≠ 0 →
      realized_for hour bp be bn = some (|n.open_ - e.close| / e.close)) ∧
    ((hour = none ∨ (hourIs hour "bmo" = true ∧ bmoMove bp be = none) ∨
      (hourIs hour "amc" = true ∧ amcMove be bn = none)) →
      realized_for hour bp be bn = fallbackMove be bn) ∧
    (∀ e n, be = some e → bn = some n → e.close ≠ 0 → n.close ≠ 0 →
      fallbackMove be bn = some (|n.close - e.close| / e.close)) ∧
    (realized_for hour bp be bn = none → ∀ dstr,
      historical_move_of ⟨dstr, hour, bp, be, bn⟩ = none) ∧
    (∀ (pre post : List GapEvent) (ev : GapEvent),
      realized_for ev.hour ev.bar_prev ev.bar_e ev.bar_next = none →
      fetch_historical_gap_moves (pre ++ ev :: post) =
        fetch_historical_gap_moves (pre ++ post)) := by
  refine ⟨?_, ?_, ?_, ?_, ?_, ?_⟩
  · intro p e hb hbp hbe hpc heo
    subst hbp
    subst hbe
    unfold realized_for
    rw [if_pos hb]
    unfold bmoMove
    dsimp only
    rw [if_pos ⟨hpc, heo⟩]
  · intro e n ha hbe hbn hec hno
    subst hbe
    subst hbn
    have hbmo := hourIs_bmo_amc_false ha
    unfold realized_for
    rw [hbmo]
    rw [if_neg (by simp : ¬ (false = true))]
    rw [if_pos ha]
    unfold amcMove
    dsimp only
    rw [if_pos ⟨hec, hno⟩]
  · intro h
    rcases h with h | ⟨hb, hmove⟩ | ⟨ha, hmove⟩
    · subst h
      rfl
    · unfold realized_for
      rw [if_pos hb, hmove]
    · have hbmo := hourIs_bmo_amc_false ha
      unfold realized_for
      rw [hbmo]
      rw [if_neg (by simp : ¬ (false = true))]
      rw [if_pos ha, hmove]
  · intro e n hbe hbn hec hnc
    subst hbe
    subst hbn
    unfold fallbackMove
    dsimp only
    rw [if_pos ⟨hec, hnc⟩]
  · intro h dstr
    unfold historical_move_of
    rw [h]
  · intro pre post ev h
    have hnone : historical_move_of ev = none := by
      unfold historical_move_of
      rw [h]
    simp [fetch_historical_gap_moves, hnone]

/-- Witness for C7 on concrete bars: a before-market event, an
after-market event (with upper-case hour tag) and an hour-less event,
each with the required bars present. -/
theorem C7_realized_move_rule_witness :
    realized_for (some "bmo") (some ⟨5, 10⟩) (some ⟨11, 12⟩) none =
      some (|(11 : ℚ) - 10| / 10) ∧
    realized_for (some "AMC") none (some ⟨5, 10⟩) (some ⟨12, 9⟩) =
      some (|(12 : ℚ) - 10| / 10) ∧
    realized_for none none (some ⟨5, 10⟩) (some ⟨12, 9⟩) =
      some (|(9 : ℚ) - 10| / 10) := by
  refine ⟨?_, ?_, ?_⟩
  · exact (C7_realized_move_rule (some "bmo") (some ⟨5, 10⟩) (some ⟨11, 12⟩) none).1
      ⟨5, 10⟩ ⟨11, 12⟩ (by decide) rfl rfl (by norm_num) (by norm_num)
  · exact (C7_realized_move_rule (some "AMC") none (some ⟨5, 10⟩) (some ⟨12, 9⟩)).2.1
      ⟨5, 10⟩ ⟨12, 9⟩ (by decide) rfl rfl (by norm_num) (by norm_num)
  · have h1 := (C7_realized_move_rule none none (some ⟨5, 10⟩) (some ⟨12, 9⟩)).2.2.1
      (Or.inl rfl)
    have h2 := (C7_realized_move_rule none none (some ⟨5, 10⟩) (some ⟨12, 9⟩)).2.2.2.1
      ⟨5, 10⟩ ⟨12, 9⟩ rfl rfl (by norm_num) (by norm_num)
    rw [h1, h2]

theorem insertionSort_ne_nil {α : Type} {r : α → α → Prop} [DecidableRel r]
    {l : List α} (h : l ≠ []) : l.insertionSort r ≠ [] := by
  intro hc
  have hlen := List.length_insertionSort r l
  rw [hc] at hlen
  exact h (List.length_eq_zero.mp hlen.symm)

theorem sort_head_spec {α : Type} {r : α → α → Prop} [DecidableRel r]
    [IsTotal α r] [IsTrans α r] {l : List α} {c : α} {rest : List α}
    (h : l.insertionSort r = c :: rest) : c ∈ l ∧ ∀ y ∈ l, y = c ∨ r c y := by
  have hmemc : c ∈ l.insertionSort r := by
    rw [h]
    exact List.mem_cons_self c rest
  have hsorted : List.Sorted r (c :: rest) := by
    rw [← h]
    exact List.sorted_insertionSort r l
  refine ⟨(List.perm_insertionSort r l).mem_iff.mp hmemc, ?_⟩
  intro y hy
  have hy' : y ∈ c :: rest := by
    rw [← h]
    exact (List.perm_insertionSort r l).mem_iff.mpr hy
  exact sorted_head_min hsorted y hy'

/-- C6: the post-earnings expiration picker keeps exactly the parseable
expirations with `days_until + 1 ≤ dte ≤ days_until + 90`; among them it
returns a monthly (third-Friday) expiration of minimal dte if any
candidate is monthly, otherwise a candidate of minimal dte, and `none`
exactly when there are no candidates. -/
theorem C6_pick_expiration (expirations : List (Option PyDate)) (today : PyDate)
    (d : ℤ) :
    (pick_straddle_expiration_after_earnings expirations today d = none ↔
      straddle_candidates expirations today d = []) ∧
    (∀ e t, (e, t) ∈ straddle_candidates expirations today d ↔
      (some e ∈ expirations ∧ t = daysBetween today e ∧ d + 1 ≤ t ∧ t ≤ d + 90)) ∧
    (straddle_candidates expirations today d ≠ [] →
      ∃ c, pick_straddle_expiration_after_earnings expirations today d = some c ∧
        c ∈ straddle_candidates expirations today d ∧
        ((∃ m ∈ straddle_candidates expirations today d,
            is_monthly_expiration (some m.1) = true) →
          is_monthly_expiration (some c.1) = true ∧
          ∀ x ∈ straddle_candidates expirations today d,
            is_monthly_expiration (some x.1) = true → c.2 ≤ x.2) ∧
        ((∀ x ∈ straddle_candidates expirations today d,
            is_monthly_expiration (some x.1) = false) →
          ∀ x ∈ straddle_candidates expirations today d, c.2 ≤ x.2)) := by
  refine ⟨?_, ?_, ?_⟩
  · unfold pick_straddle_expiration_after_earnings
    by_cases hemp : straddle_candidates expirations today d = []
    · rw [if_pos hemp]
      simp [hemp]
    · rw [if_neg hemp]
      by_cases hm : (straddle_candidates expirations today d).filter
          (fun c => is_monthly_expiration (some c.1)) = []
      · rw [if_neg (not_not_intro hm)]
        rcases List.exists_cons_of_ne_nil
          (insertionSort_ne_nil (r := dteRel) hemp) with ⟨c, rest, hcr⟩
        rw [hcr]
        simp [hemp]
      · rw [if_pos hm]
        rcases List.exists_cons_of_ne_nil
          (insertionSort_ne_nil (r := dteRel) hm) with ⟨c, rest, hcr⟩
        rw [hcr]
        simp [hemp]
  · intro e t
    unfold straddle_candidates
    rw [List.mem_filterMap]
    constructor
    · rintro ⟨a, ha, hf⟩
      cases a with
      | none => simp at hf
      | some e' =>
        dsimp only at hf
        by_cases h1 : daysBetween today e' < d + 1
        · rw [if_pos h1] at hf
          simp at hf
        · rw [if_neg h1] at hf
          by_cases h2 : daysBetween today e' > d + 90
          · rw [if_pos h2] at hf
            simp at hf
          · rw [if_neg h2] at hf
            simp only [Option.some.injEq, Prod.mk.injEq] at hf
            rcases hf with ⟨he, ht⟩
            subst he
            refine ⟨ha, ht.symm, ?_, ?_⟩ <;> omega
    · rintro ⟨ha, ht, hlb, hub⟩
      subst ht
      refine ⟨some e, ha, ?_⟩
      dsimp only
      rw [if_neg (by omega), if_neg (by omega)]
  · intro hne
    unfold pick_straddle_expiration_after_earnings
    rw [if_neg hne]
    by_cases hm : (straddle_candidates expirations today d).filter
        (fun c => is_monthly_expiration (some c.1)) = []
    · rw [if_neg (not_not_intro hm)]
      rcases List.exists_cons_of_ne_nil
        (insertionSort_ne_nil (r := dteRel) hne) with ⟨c, rest, hcr⟩
      rcases sort_head_spec hcr with ⟨hcmem, hmin⟩
      refine ⟨c, by rw [hcr]; rfl, hcmem, ?_, ?_⟩
      · rintro ⟨m, hmmem, hmmon⟩
        exact absurd (by simpa using hmmon)
          ((List.filter_eq_nil_iff.mp hm) m hmmem)
      · intro _ x hx
        rcases hmin x hx with rfl | hr
        · exact le_refl _
        · exact hr
    · rw [if_pos hm]
      rcases List.exists_cons_of_ne_nil
        (insertionSort_ne_nil (r := dteRel) hm) with ⟨c, rest, hcr⟩
      rcases sort_head_spec hcr with ⟨hcmem, hmin⟩
      have hcfil := List.mem_filter.mp hcmem
      have hcmon : is_monthly_expiration (some c.1) = true := by
        simpa using hcfil.2
      refine ⟨c, by rw [hcr]; rfl, hcfil.1, ?_, ?_⟩
      · intro _
        refine ⟨hcmon, ?_⟩
        intro x hx hxmon
        have hxfil : x ∈ (straddle_candidates expirations today d).filter
            (fun c => is_monthly_expiration (some c.1)) :=
          List.mem_filter.mpr ⟨hx, by simpa using hxmon⟩
        rcases hmin x hxfil with rfl | hr
        · exact le_refl _
        · exact hr
      · intro hnone
        exfalso
        have hfalse := hnone c hcfil.1
        rw [hfalse] at hcmon
        exact absurd hcmon (by simp)

/-- Witness for C6: expirations 2024-03-15 (monthly), 2024-03-22 and
2024-04-19 (monthly) seen from 2024-03-01 with earnings in 10 days all
have dte in `[11, 100]`, so a pick exists. -/
theorem C6_pick_expiration_witness :
    (pick_straddle_expiration_after_earnings
      [some ⟨2024, 3, 15⟩, some ⟨2024, 3, 22⟩, some ⟨2024, 4, 19⟩]
      ⟨2024, 3, 1⟩ 10).isSome = true := by
  obtain ⟨c, hc, -⟩ := (C6_pick_expiration
    [some ⟨2024, 3, 15⟩, some ⟨2024, 3, 22⟩, some ⟨2024, 4, 19⟩]
    ⟨2024, 3, 1⟩ 10).2.2 (by decide)
  rw [hc]
  rfl

/-- C1 counterexample: on a cache miss, a transport failure of the
provider makes `fetch_earnings_calendar_cached` raise (the
`requests.get` exception propagates through `fetch_earnings_calendar`,
which only converts non-200 statuses) and nothing is written to the
cache — the call does not return `[]`. -/
theorem C1_transport_error_raises :
    (fetch_earnings_calendar_cached "AAPL|2026-01-01|2026-02-14" 1000 21600 []
      ProviderResponse.transportError).result = .error .transport ∧
    (fetch_earnings_calendar_cached "AAPL|2026-01-01|2026-02-14" 1000 21600 []
      ProviderResponse.transportError).cache' = [] := by
  constructor <;> rfl

/-- C1 amended: only a non-success HTTP response is treated as "no events
found" — the cached fetch then returns `[]` and stores the empty result
under `checked_at = now`; a transport error or a malformed (undecodable)
payload instead propagates as an exception and caches nothing. -/
theorem C1_provider_failure_behaviour (k : String) (now ttl : ℚ)
    (entries : List (String × JVal)) (code : ℕ) (body : Option JVal)
    (hmiss : lookupKey entries k = none) (hcode : code ≠ 200)
    (hlen : entries.length < 4000) :
    (fetch_earnings_calendar_cached k now ttl entries (.http code body)).result =
      .ok [] ∧
    lookupKey
      (fetch_earnings_calendar_cached k now ttl entries (.http code body)).cache' k =
      some (.obj [("checked_at", .num now), ("data", .arr [])]) ∧
    fetch_earnings_calendar_cached k now ttl entries .transportError =
      ⟨.error .transport, entries, true⟩ ∧
    fetch_earnings_calendar_cached k now ttl entries (.http 200 none) =
      ⟨.error .jsonDecode, entries, true⟩ := by
  have hprobe := cacheProbe_of_lookup_none now ttl hmiss
  have hfetch : fetch_earnings_calendar (.http code body) = .ok [] := by
    unfold fetch_earnings_calendar
    dsimp only
    rw [if_pos hcode]
  have h1 := cachedFetch_miss_ok hprobe hfetch
  have hsmall : (setKey entries k
      (.obj [("checked_at", .num now), ("data", .arr [])])).length ≤ 4000 := by
    have := length_setKey_le entries k
      (.obj [("checked_at", .num now), ("data", .arr [])])
    omega
  refine ⟨?_, ?_, ?_, ?_⟩
  · rw [h1]
  · rw [h1]
    dsimp only
    rw [pruneEntries_of_small hsmall]
    exact lookupKey_setKey_self entries k _
  · exact cachedFetch_miss_err hprobe rfl
  · exact cachedFetch_miss_err hprobe rfl

/-- Witness for C1 (amended) at a concrete input: empty cache, HTTP 500. -/
theorem C1_provider_failure_behaviour_witness :
    (fetch_earnings_calendar_cached "MSFT|2026-01-01|2026-02-14" 5 21600 []
      (.http 500 none)).result = .ok [] ∧
    lookupKey ((fetch_earnings_calendar_cached "MSFT|2026-01-01|2026-02-14" 5 21600 []
      (.http 500 none)).cache') "MSFT|2026-01-01|2026-02-14" =
      some (.obj [("checked_at", .num 5), ("data", .arr [])]) ∧
    fetch_earnings_calendar_cached "MSFT|2026-01-01|2026-02-14" 5 21600 []
      .transportError = ⟨.error .transport, [], true⟩ ∧
    fetch_earnings_calendar_cached "MSFT|2026-01-01|2026-02-14" 5 21600 []
      (.http 200 none) = ⟨.error .jsonDecode, [], true⟩ :=
  C1_provider_failure_behaviour "MSFT|2026-01-01|2026-02-14" 5 21600 [] 500 none
    rfl (by decide) (by decide)

/-- C2: after a real fetch (provider called, result `ds`) at time `t0 > 0`
stores its payload, a second call with the same key at any `now` with
`now - t0 ≤ ttl` returns the identical payload `ds` without calling the
provider, and the whole entries map — in particular the stored
`checked_at` — is left unchanged.  (`entries.length < 4000` rules out the
fresh entry being evicted by the pruning step of the first call.) -/
theorem C2_hit_returns_stored_payload (k : String) (t0 now ttl : ℚ)
    (entries : List (String × JVal)) (resp0 resp1 : ProviderResponse)
    (ds : List JVal)
    (h0 : 0 < t0) (hwin : now - t0 ≤ ttl) (hlen : entries.length < 4000)
    (hcall : (fetch_earnings_calendar_cached k t0 ttl entries resp0).providerCalled =
      true)
    (hok : (fetch_earnings_calendar_cached k t0 ttl entries resp0).result = .ok ds) :
    fetch_earnings_calendar_cached k now ttl
        (fetch_earnings_calendar_cached k t0 ttl entries resp0).cache' resp1 =
      ⟨.ok ds, (fetch_earnings_calendar_cached k t0 ttl entries resp0).cache',
        false⟩ := by
  rcases hprobe : cacheProbe entries k t0 ttl with e | xs | _
  · rw [show fetch_earnings_calendar_cached k t0 ttl entries resp0 =
        ⟨.error e, entries, false⟩ by
      unfold fetch_earnings_calendar_cached
      rw [hprobe]] at hcall
    exact absurd hcall (by simp)
  · rw [show fetch_earnings_calendar_cached k t0 ttl entries resp0 =
        ⟨.ok xs, entries, false⟩ by
      unfold fetch_earnings_calendar_cached
      rw [hprobe]] at hcall
    exact absurd hcall (by simp)
  · rcases hf : fetch_earnings_calendar resp0 with e | ds0
    · rw [cachedFetch_miss_err hprobe hf] at hok
      exact absurd hok (by simp)
    · have h1 := cachedFetch_miss_ok hprobe hf
      rw [h1] at hok
      have hds : ds0 = ds := by simpa using hok
      subst hds
      rw [h1]
      dsimp only
      have hsmall : (setKey entries k
          (.obj [("checked_at", .num t0), ("data", .arr ds0)])).length ≤ 4000 := by
        have := length_setKey_le entries k
          (.obj [("checked_at", .num t0), ("data", .arr ds0)])
        omega
      rw [pruneEntries_of_small hsmall]
      have hlook := lookupKey_setKey_self entries k
        (.obj [("checked_at", .num t0), ("data", .arr ds0)])
      have hprobe2 := cacheProbe_stored_hit hlook h0 hwin
      unfold fetch_earnings_calendar_cached
      rw [hprobe2, fetch_ok_filtered hf]

/-- Witness for C2: an empty cache, a non-200 first fetch at `t0 = 1`
(storing the empty payload), and a second call at `now = 2` that returns
the stored `[]` without touching the (failing) provider. -/
theorem C2_hit_returns_stored_payload_witness :
    fetch_earnings_calendar_cached "A" 2 21600
        (fetch_earnings_calendar_cached "A" 1 21600 [] (.http 500 none)).cache'
        .transportError =
      ⟨.ok [], (fetch_earnings_calendar_cached "A" 1 21600 []
        (.http 500 none)).cache', false⟩ :=
  C2_hit_returns_stored_payload "A" 1 2 21600 [] (.http 500 none) .transportError []
    (by norm_num) (by norm_num) (by decide) rfl rfl

/-- C3 amended: when inserting a fresh entry makes the count exceed 4000
(count after insert = `entries.length + 1 ≥ 4001`), the cached fetch
prunes exactly the 500 entries with the least `(checked_at, key)` pairs
(ties broken by key order): every surviving `(checked_at, key)` pair
is ≥ every evicted pair, and the count immediately after pruning is
`entries.length + 1 - 500` — which is at least 3501, not ≤ 3500 as
claimed. -/
theorem C3_prune_eviction (k : String) (now ttl : ℚ)
    (entries : List (String × JVal)) (resp : ProviderResponse) (ds : List JVal)
    (hnd : (entries.map Prod.fst).Nodup)
    (hfresh : lookupKey entries k = none)
    (hbig : 4000 ≤ entries.length)
    (hfetch : fetch_earnings_calendar resp = .ok ds) :
    (fetch_earnings_calendar_cached k now ttl entries resp).cache' =
      pruneEntries (setKey entries k
        (.obj [("checked_at", .num now), ("data", .arr ds)])) ∧
    (fetch_earnings_calendar_cached k now ttl entries resp).cache'.length + 500 =
      entries.length + 1 ∧
    (∀ q ∈ (fetch_earnings_calendar_cached k now ttl entries resp).cache',
      ∀ v ∈ pruneVictims (setKey entries k
        (.obj [("checked_at", .num now), ("data", .arr ds)])),
      tsKeyRel v (entryTs q.2, q.1)) := by
  have h1 := cachedFetch_miss_ok (cacheProbe_of_lookup_none now ttl hfresh) hfetch
  have hset := setKey_of_fresh
    (JVal.obj [("checked_at", JVal.num now), ("data", JVal.arr ds)])
    (lookupKey_eq_none_iff.mp hfresh)
  have hnd1 : ((setKey entries k
      (.obj [("checked_at", .num now), ("data", .arr ds)])).map Prod.fst).Nodup := by
    rw [hset, List.map_append, List.nodup_append]
    refine ⟨hnd, by simp, ?_⟩
    intro a ha hb
    simp only [List.map_cons, List.map_nil, List.mem_singleton] at hb
    subst hb
    rcases List.mem_map.mp ha with ⟨p, hp, hpa⟩
    exact lookupKey_eq_none_iff.mp hfresh p hp hpa
  have hlen1 : 4000 < (setKey entries k
      (.obj [("checked_at", .num now), ("data", .arr ds)])).length := by
    rw [hset, List.length_append]
    simp only [List.length_singleton]
    omega
  refine ⟨by rw [h1], ?_, ?_⟩
  · rw [h1]
    dsimp only
    have hpl := pruneEntries_length hnd1 hlen1
    have hsetlen : (setKey entries k
        (.obj [("checked_at", .num now), ("data", .arr ds)])).length =
        entries.length + 1 := by
      rw [hset, List.length_append]
      simp
    omega
  · rw [h1]
    dsimp only
    exact pruneEntries_keeps_newer hlen1

/-- Witness for C3 (amended): a concrete cache of 4000 distinct entries
plus one inserted entry prunes down to 3501 entries. -/
theorem C3_prune_eviction_witness :
    (fetch_earnings_calendar_cached "z" 999 21600 (mkEntries 4000)
      (.http 500 none)).cache'.length + 500 = 4001 := by
  have h := (C3_prune_eviction "z" 999 21600 (mkEntries 4000) (.http 500 none) []
    (mkEntries_keys_nodup 4000) (mkEntries_lookup_z 4000)
    (mkEntries_length 4000).ge rfl).2.1
  rw [mkEntries_length] at h
  exact h

/-- C3 counterexample: on a concrete cache of 4000 entries the insert
makes the count 4001 (`> 4000`), and after the pruning step the entry
count is 3501 — not `≤ 3500` as the claim states. -/
theorem C3_count_after_prune_exceeds_3500 :
    4000 < (setKey (mkEntries 4000) "z"
      (.obj [("checked_at", .num 999), ("data", .arr [])])).length ∧
    ¬ ((fetch_earnings_calendar_cached "z" 999 21600 (mkEntries 4000)
      (.http 500 none)).cache'.length ≤ 3500) := by
  have hfresh := mkEntries_lookup_z 4000
  have hset := setKey_of_fresh
    (JVal.obj [("checked_at", JVal.num 999), ("data", JVal.arr [])])
    (lookupKey_eq_none_iff.mp hfresh)
  have hlen1 : (setKey (mkEntries 4000) "z"
      (JVal.obj [("checked_at", JVal.num 999), ("data", JVal.arr [])])).length =
      4001 := by
    rw [hset, List.length_append, mkEntries_length]
    rfl
  constructor
  · omega
  · have h1 := cachedFetch_miss_ok (cacheProbe_of_lookup_none 999 21600 hfresh)
      (rfl : fetch_earnings_calendar (.http 500 none) = .ok [])
    rw [h1]
    dsimp only
    have hnd1 : ((setKey (mkEntries 4000) "z"
        (JVal.obj [("checked_at", JVal.num 999), ("data", JVal.arr [])])).map
        Prod.fst).Nodup := by
      rw [hset]
      exact mkEntries_append_keys_nodup 4000 _
    have hpl := pruneEntries_length hnd1 (by omega)
    omega

end EarningsCrush
